import Mathlib

/-!
Verification of the molecular-topology toolkit: a shallow embedding of the
connectivity (MDF) parser, the topology deriver, the CHARMM parameter-file
section parsers and the parameter reconciliation matcher, together with
proofs about the claims of the specification.

Strings manipulated by the Python source are modelled at the character-list
level; Python numeric parsing (float and int on the token shapes the code
can produce) is modelled exactly over the rationals.  Fallible Python code
(statements that can raise) is modelled with Except.
-/

namespace MolTopo

/-- Whitespace set used by Python str.split, str.strip and str.isspace on
ASCII input.  Exotic Unicode whitespace is outside the scope of the model. -/
def pyIsWs (c : Char) : Bool :=
  c == ' ' || c == '\t' || c == '\n' || c == '\r' || c == '\x0b' || c == '\x0c'

/-- Left strip: drop leading whitespace. -/
def lstripWs (l : List Char) : List Char := l.dropWhile pyIsWs

/-- Right strip: drop trailing whitespace. -/
def rstripWs (l : List Char) : List Char := (l.reverse.dropWhile pyIsWs).reverse

/-- Model of the Python str.strip method (no argument form). -/
def pyStrip (l : List Char) : List Char := rstripWs (lstripWs l)

/-- Worker for pySplitWs: accumulates the current token in reverse. -/
def wsSplitGo : List Char → List Char → List (List Char)
  | [], acc => if acc.isEmpty then [] else [acc.reverse]
  | c :: cs, acc =>
    if pyIsWs c then
      if acc.isEmpty then wsSplitGo cs [] else acc.reverse :: wsSplitGo cs []
    else wsSplitGo cs (c :: acc)

/-- Model of the Python no-argument str.split: split on runs of whitespace,
dropping empty tokens. -/
def pySplitWs (l : List Char) : List (List Char) := wsSplitGo l []

/-- Worker for pySplitChar. -/
def chSplitGo (sep : Char) : List Char → List Char → List (List Char)
  | [], acc => [acc.reverse]
  | c :: cs, acc =>
    if c == sep then acc.reverse :: chSplitGo sep cs [] else chSplitGo sep cs (c :: acc)

/-- Model of the Python single-character str.split(sep): keeps empty pieces. -/
def pySplitChar (sep : Char) (l : List Char) : List (List Char) := chSplitGo sep l []

/-- Model of the Python str.isspace method: true iff nonempty and all
whitespace. -/
def pyIsSpaceTok (t : List Char) : Bool := !t.isEmpty && t.all pyIsWs

/-- Numeric value of a digit string. -/
def digitsValN (l : List Char) : Nat :=
  l.foldl (fun a c => 10 * a + (c.toNat - Char.toNat '0')) 0

/-- Unsigned part of Python float parsing restricted to tokens made of digits
and dots, which is all the regex character classes of the source can produce:
accepts d+, d+.d* and .d+ forms, rejects empty, bare dot and multiple dots. -/
def pyFloatU (l : List Char) : Option ℚ :=
  let ip := l.takeWhile Char.isDigit
  match l.dropWhile Char.isDigit with
  | [] => if ip.isEmpty then none else some (mkRat (Int.ofNat (digitsValN ip)) 1)
  | '.' :: fp =>
    if fp.all Char.isDigit && !(ip.isEmpty && fp.isEmpty) then
      some (mkRat (Int.ofNat (digitsValN ip * 10 ^ fp.length + digitsValN fp)) (10 ^ fp.length))
    else none
  | _ => none

/-- Model of the Python float constructor on the token shapes produced by the
regex classes of the source (digits, dots and an optional leading minus).
Returns none where Python raises ValueError.  The value is built with mkRat
so that the embedding stays kernel-computable. -/
def pyFloat (l : List Char) : Option ℚ :=
  match l with
  | '-' :: rest => (pyFloatU rest).map Rat.neg
  | _ => pyFloatU l

/-- Model of the Python int constructor on whitespace-free tokens: optional
sign followed by a nonempty digit string. -/
def pyInt (l : List Char) : Option Int :=
  match l with
  | '+' :: rest => if !rest.isEmpty && rest.all Char.isDigit then some (digitsValN rest) else none
  | '-' :: rest => if !rest.isEmpty && rest.all Char.isDigit then some (-(digitsValN rest : Int)) else none
  | _ => if !l.isEmpty && l.all Char.isDigit then some (digitsValN l) else none

/-- Case-insensitive prefix test, modelling re.match of a literal pattern
with re.IGNORECASE against the start of a line. -/
def ciHasPfx (pat : List Char) (l : List Char) : Bool :=
  (l.take pat.length).map Char.toLower == pat.map Char.toLower

/-! ## Connectivity (MDF) parser, from mdf-parser-cli/parser/mdf_parser.py -/

/-- Atom entry of the Connectivity Model: the source stores the charge group
(field 2, empty string when missing) and the neighbor list; the atom type in
field 1 is read but never stored. -/
structure AtomRec where
  charge_group : String
  neighbors : List String
deriving Repr, DecidableEq

/-- Python dict assignment on an association list: an existing key keeps its
position and gets the new value, a new key is appended at the end. -/
def dictInsert {V : Type} : List (String × V) → String → V → List (String × V)
  | [], k, v => [(k, v)]
  | (k0, v0) :: rest, k, v =>
    if k0 = k then (k, v) :: rest else (k0, v0) :: dictInsert rest k v

/-- Neighbor extraction loop of parse_mdf_file: for every field that starts
with the letter C and is followed by another field, the following field is
split on the slash character and every piece other than a bare question mark
or a pure-whitespace piece is stripped and appended as a neighbor.  Note the
source uses parts.index(part), the index of the first occurrence. -/
def extract_neighbors (parts : List (List Char)) : List String :=
  parts.foldl
    (fun acc part =>
      if part.take 1 = ['C'] ∧ parts.length > parts.indexOf part + 1 then
        let connections := pySplitChar '/' (parts.getD (parts.indexOf part + 1) [])
        acc ++ (connections.filter
          (fun c => c != ['?'] && !(pyIsSpaceTok c))).map (fun c => String.mk (pyStrip c))
      else acc)
    []

/-- One iteration of the line loop of parse_mdf_file: either the run fails
(an int conversion on an @column line raises, rewrapped by the outer
handler) or the loop state, the in-molecule flag and the atoms dictionary,
is updated.  The column_indices dictionary built from @column lines is
never read by the source, so only its possible failure is kept. -/
def mdfStep (l : String) (inMol : Bool) (atoms : List (String × AtomRec)) :
    Except String (Bool × List (String × AtomRec)) :=
  let line := pyStrip l.toList
  if line.isEmpty then .ok (inMol, atoms)
  else if List.isPrefixOf ("@column".toList) line then
    let parts := pySplitWs line
    if parts.length ≥ 3 then
      match pyInt (parts.getD 1 []) with
      | some _ => .ok (inMol, atoms)
      | none => .error ("Error reading MDF file")
    else .ok (inMol, atoms)
  else if List.isPrefixOf ("@molecule".toList) line then .ok (true, atoms)
  else if line.take 1 = ['!'] ∨ line.take 1 = ['#'] ∨ ¬inMol then .ok (inMol, atoms)
  else
    let parts := pySplitWs line
    if parts.isEmpty then .ok (inMol, atoms)
    else
      .ok (inMol, dictInsert atoms (String.mk (parts.getD 0 []))
        ⟨String.mk (parts.getD 2 []), extract_neighbors parts⟩)

/-- Line loop of parse_mdf_file. -/
def mdfGo : List String → Bool → List (String × AtomRec) → Except String (List (String × AtomRec))
  | [], _, atoms =>
    if atoms.isEmpty then .error ("No valid atom data found in the MDF file") else .ok atoms
  | l :: ls, inMol, atoms =>
    match mdfStep l inMol atoms with
    | .error e => .error e
    | .ok (inMol2, atoms2) => mdfGo ls inMol2 atoms2

/-- Model of parse_mdf_file over the list of lines of the file: builds the
Connectivity Model, raising when no atom was recognized. -/
def parse_mdf_file (lines : List String) : Except String (List (String × AtomRec)) :=
  mdfGo lines false []

/-! ## Topology deriver, from mdf-parser-cli/parser/topology.py -/

/-- Python comparison of strings at the character-list level: code-point
lexicographic, a proper prefix is smaller. -/
def listLtB : List Char → List Char → Bool
  | [], [] => false
  | [], _ :: _ => true
  | _ :: _, [] => false
  | c :: cs, d :: ds => if c < d then true else if d < c then false else listLtB cs ds

/-- Python strict comparison of strings. -/
abbrev strLt (a b : String) : Prop := listLtB a.data b.data = true

/-- Python non-strict comparison of strings, the order in which a sorted
pair is emitted. -/
abbrev strLe (a b : String) : Prop := ¬ strLt b a

/-- Model of the Python sorted builtin on a two-element list: a stable sort
swaps the pair exactly when the second element is strictly smaller. -/
def sort2 (a b : String) : String × String := if strLt b a then (b, a) else (a, b)

/-- Quadruple of charge-group labels. -/
abbrev Tup4 := String × String × String × String

/-- Python lexicographic comparison of 4-tuples of strings. -/
def tupLt4 (x y : Tup4) : Prop :=
  strLt x.1 y.1 ∨ (x.1 = y.1 ∧ (strLt x.2.1 y.2.1 ∨ (x.2.1 = y.2.1 ∧
    (strLt x.2.2.1 y.2.2.1 ∨ (x.2.2.1 = y.2.2.1 ∧ strLt x.2.2.2 y.2.2.2)))))

instance (x y : Tup4) : Decidable (tupLt4 x y) := by
  unfold tupLt4; infer_instance

/-- Model of the Python min builtin on two tuples: returns the first argument
unless the second is strictly smaller. -/
def min4py (f r : Tup4) : Tup4 := if tupLt4 r f then r else f

/-- Reversed quadruple, the Python slice with step minus one. -/
def rev4 (t : Tup4) : Tup4 := (t.2.2.2, t.2.2.1, t.2.1, t.1)

/-- Unordered index pairs i less than j in loop order of the source. -/
def ordPairs {α : Type} : List α → List (α × α)
  | [] => []
  | x :: xs => xs.map (fun y => (x, y)) ++ ordPairs xs

/-- Topology-map insertion of the source: a fresh key is appended with a
one-element path list, an existing key gets the path appended in place. -/
def mapAppend {K : Type} [DecidableEq K] :
    List (K × List String) → K → String → List (K × List String)
  | [], k, p => [(k, [p])]
  | (k0, ps) :: rest, k, p =>
    if k0 = k then (k0, ps ++ [p]) :: rest else (k0, ps) :: mapAppend rest k p

/-- Pairwise distinctness of four atom identifiers, the source test that the
set of the four labels has size four. -/
def distinct4 (a b c d : String) : Prop :=
  a ≠ b ∧ a ≠ c ∧ a ≠ d ∧ b ≠ c ∧ b ≠ d ∧ c ≠ d

instance (a b c d : String) : Decidable (distinct4 a b c d) := by
  unfold distinct4; infer_instance

/-- Bond extraction loop.  The bonds_set of the source is only used for a
debug log line and is not modelled. -/
def bondPass (ad : List (String × AtomRec)) : List ((String × String) × List String) :=
  ad.foldl
    (fun bm entry =>
      entry.2.neighbors.foldl
        (fun bm nbr =>
          match List.lookup nbr ad with
          | none => bm
          | some recB =>
            mapAppend bm (sort2 entry.2.charge_group recB.charge_group)
              (entry.1 ++ "-" ++ nbr)) bm)
    []

/-- Angle extraction loop: for every atom b and every unordered pair of its
neighbors that are known atoms, insert the canonical triple with sorted end
groups and the center group in the middle. -/
def anglePass (ad : List (String × AtomRec)) :
    List ((String × String × String) × List String) :=
  ad.foldl
    (fun am entry =>
      (ordPairs entry.2.neighbors).foldl
        (fun am pr =>
          match List.lookup pr.1 ad, List.lookup pr.2 ad with
          | some ra, some rc =>
            let se := sort2 ra.charge_group rc.charge_group
            mapAppend am (se.1, entry.2.charge_group, se.2)
              (pr.1 ++ "-" ++ entry.1 ++ "-" ++ pr.2)
          | _, _ => am) am)
    []

/-- Undirected bonded id pairs.  The source collects them in a Python set,
whose iteration order is implementation defined; the model fixes encounter
order with duplicates removed, which the claims (all order independent) do
not observe. -/
def bondPairs (ad : List (String × AtomRec)) : List (String × String) :=
  (ad.foldl
    (fun acc entry =>
      entry.2.neighbors.foldl (fun acc nbr => acc ++ [sort2 entry.1 nbr]) acc)
    []).dedup

/-- Dihedral extraction loop: for every bonded pair (b, c) of known atoms,
every known neighbor a of b other than c and every known neighbor d of c
other than b with the four atoms pairwise distinct, insert the lexicographic
minimum of the group quadruple and its reverse. -/
def dihedralPass (ad : List (String × AtomRec)) : List (Tup4 × List String) :=
  (bondPairs ad).foldl
    (fun dm bp =>
      match List.lookup bp.1 ad, List.lookup bp.2 ad with
      | some rb, some rc =>
        let neighborsB := rb.neighbors.filter (fun x => x != bp.2)
        let neighborsC := rc.neighbors.filter (fun x => x != bp.1)
        neighborsB.foldl
          (fun dm aL =>
            match List.lookup aL ad with
            | none => dm
            | some ra =>
              neighborsC.foldl
                (fun dm dL =>
                  match List.lookup dL ad with
                  | none => dm
                  | some rd =>
                    if distinct4 aL bp.1 bp.2 dL then
                      let fwd : Tup4 := (ra.charge_group, rb.charge_group,
                        rc.charge_group, rd.charge_group)
                      mapAppend dm (min4py fwd (rev4 fwd))
                        (aL ++ "-" ++ bp.1 ++ "-" ++ bp.2 ++ "-" ++ dL)
                    else dm) dm) dm
      | _, _ => dm)
    []

/-- Model of extract_topology: the triple of the three independent passes. -/
def extract_topology (ad : List (String × AtomRec)) :
    List ((String × String) × List String) ×
    List ((String × String × String) × List String) ×
    List (Tup4 × List String) :=
  (bondPass ad, anglePass ad, dihedralPass ad)

/-! ## CHARMM parameter-file section parsers, from tools/charmm_parser/parsers.py

The data-line grammars of the source are Python regular expressions built
only from literals, the classes \S \s \d [\d\.] [-\d\.], the greedy plus and
star, greedy optional groups and a final capture of the rest of the line.
In every one of these patterns each quantified class is disjoint from the
character that has to follow it (a \S or digit-dot run is never followed by
a character of the same class), so leftmost-greedy backtracking coincides
with deterministic maximal munch, which is how the matchers below are
written.  re.match semantics: anchored at the start of the line, trailing
unmatched text is allowed. -/

/-- Complement class of whitespace, the regex class \S. -/
def nonWsCh (c : Char) : Bool := !pyIsWs c

/-- Digit-or-dot class of the regex. -/
def numCh (c : Char) : Bool := c.isDigit || c == '.'

/-- Digit, dot or minus class of the improper-section regex. -/
def numNegCh (c : Char) : Bool := c.isDigit || c == '.' || c == '-'

/-- One-or-more greedy run of a character class; none when the run is empty. -/
def reqCls (p : Char → Bool) (l : List Char) : Option (List Char × List Char) :=
  let t := l.takeWhile p
  if t.isEmpty then none else some (t, l.drop t.length)

/-- Model of the optional trailing comment group of every section regex:
whitespace, an exclamation mark, optional whitespace, then a capture of the
rest of the line.  none models a non-participating group. -/
def matchTrailCmt (l : List Char) : Option (List Char) :=
  match reqCls pyIsWs l with
  | none => none
  | some (_, r) =>
    match r with
    | '!' :: r2 => some (r2.dropWhile pyIsWs)
    | _ => none

/-- Model of the optional numeric group of the angle regex: whitespace then
a digit-dot run, participating only when both match. -/
def matchOptNum (l : List Char) : Option (List Char) × List Char :=
  match reqCls pyIsWs l with
  | none => (none, l)
  | some (_, r) =>
    match reqCls numCh r with
    | none => (none, l)
    | some (t, r2) => (some t, r2)

/-- Matcher of the BONDS data-line regex: two \S+ atoms and two digit-dot
coefficients separated by whitespace, optional trailing comment. -/
def matchBondLine (l : List Char) :
    Option (List Char × List Char × List Char × List Char × Option (List Char)) := do
  let (a1, r1) ← reqCls nonWsCh l
  let (_, r2) ← reqCls pyIsWs r1
  let (a2, r3) ← reqCls nonWsCh r2
  let (_, r4) ← reqCls pyIsWs r3
  let (kb, r5) ← reqCls numCh r4
  let (_, r6) ← reqCls pyIsWs r5
  let (b0, r7) ← reqCls numCh r6
  some (a1, a2, kb, b0, matchTrailCmt r7)

/-- Matcher of the ANGLES data-line regex: three atoms, two mandatory and
two optional digit-dot coefficients, optional trailing comment. -/
def matchAngleLine (l : List Char) :
    Option (List Char × List Char × List Char × List Char × List Char ×
      Option (List Char) × Option (List Char) × Option (List Char)) := do
  let (a1, r1) ← reqCls nonWsCh l
  let (_, r2) ← reqCls pyIsWs r1
  let (a2, r3) ← reqCls nonWsCh r2
  let (_, r4) ← reqCls pyIsWs r3
  let (a3, r5) ← reqCls nonWsCh r4
  let (_, r6) ← reqCls pyIsWs r5
  let (kt, r7) ← reqCls numCh r6
  let (_, r8) ← reqCls pyIsWs r7
  let (t0, r9) ← reqCls numCh r8
  let (kub, r10) := matchOptNum r9
  let (s0, r11) := matchOptNum r10
  some (a1, a2, a3, kt, t0, kub, s0, matchTrailCmt r11)

/-- Matcher of the DIHEDRALS data-line regex: four atoms, a digit-dot
constant, an integer multiplicity and a digit-dot delta, optional comment. -/
def matchDihedralLine (l : List Char) :
    Option (List Char × List Char × List Char × List Char × List Char ×
      List Char × List Char × Option (List Char)) := do
  let (a1, r1) ← reqCls nonWsCh l
  let (_, r2) ← reqCls pyIsWs r1
  let (a2, r3) ← reqCls nonWsCh r2
  let (_, r4) ← reqCls pyIsWs r3
  let (a3, r5) ← reqCls nonWsCh r4
  let (_, r6) ← reqCls pyIsWs r5
  let (a4, r7) ← reqCls nonWsCh r6
  let (_, r8) ← reqCls pyIsWs r7
  let (kchi, r9) ← reqCls numCh r8
  let (_, r10) ← reqCls pyIsWs r9
  let (mult, r11) ← reqCls Char.isDigit r10
  let (_, r12) ← reqCls pyIsWs r11
  let (delta, r13) ← reqCls numCh r12
  some (a1, a2, a3, a4, kchi, mult, delta, matchTrailCmt r13)

/-- Matcher of the ATOMS data-line regex: the literal MASS, an integer index
with optional minus (not captured), the force-field type and the mass. -/
def matchAtomLine (l : List Char) :
    Option (List Char × List Char × Option (List Char)) := do
  if List.isPrefixOf ("MASS".toList) l then
    let r0 := l.drop 4
    let (_, r1) ← reqCls pyIsWs r0
    let r2 := match r1 with
      | '-' :: t => t
      | _ => r1
    let (_, r3) ← reqCls Char.isDigit r2
    let (_, r4) ← reqCls pyIsWs r3
    let (ff, r5) ← reqCls nonWsCh r4
    let (_, r6) ← reqCls pyIsWs r5
    let (mass, r7) ← reqCls numCh r6
    some (ff, mass, matchTrailCmt r7)
  else none

/-- Matcher of the IMPROPER data-line regex: four atoms, a possibly negative
constant, an uncaptured integer and a digit-dot angle, optional comment. -/
def matchImproperLine (l : List Char) :
    Option (List Char × List Char × List Char × List Char × List Char ×
      List Char × Option (List Char)) := do
  let (a1, r1) ← reqCls nonWsCh l
  let (_, r2) ← reqCls pyIsWs r1
  let (a2, r3) ← reqCls nonWsCh r2
  let (_, r4) ← reqCls pyIsWs r3
  let (a3, r5) ← reqCls nonWsCh r4
  let (_, r6) ← reqCls pyIsWs r5
  let (a4, r7) ← reqCls nonWsCh r6
  let (_, r8) ← reqCls pyIsWs r7
  let (kpsi, r9) ← reqCls numNegCh r8
  let (_, r10) ← reqCls pyIsWs r9
  let (_, r11) ← reqCls Char.isDigit r10
  let (_, r12) ← reqCls pyIsWs r11
  let (psi0, r13) ← reqCls numCh r12
  some (a1, a2, a3, a4, kpsi, psi0, matchTrailCmt r13)

/-- Comment seeding of a freshly parsed record: the inline comment, when the
captured text is truthy (nonempty), is stripped and becomes the first
comment entry. -/
def seedComments : Option (List Char) → List String
  | none => []
  | some c => if c.isEmpty then [] else [String.mk (pyStrip c)]

/-- In-place update of the last element of a list, modelling a comment
append through the current_entry reference of the source. -/
def updLast {α : Type} (acc : List α) (f : α → α) : List α :=
  acc.dropLast ++ (acc.getLast?.map f).toList

/-- Parameter record of the ATOMS section. -/
structure AtomEntry where
  fftype : String
  mass : ℚ
  comments : List String
  line : Nat
deriving Repr, DecidableEq

/-- Parameter record of the BONDS section. -/
structure BondEntry where
  atom1 : String
  atom2 : String
  kb : ℚ
  b0 : ℚ
  comments : List String
  line : Nat
deriving Repr, DecidableEq

/-- Parameter record of the ANGLES section. -/
structure AngleEntry where
  atom1 : String
  atom2 : String
  atom3 : String
  ktheta : ℚ
  theta0 : ℚ
  kub : Option ℚ
  s0 : Option ℚ
  comments : List String
  line : Nat
deriving Repr, DecidableEq

/-- Parameter record of the DIHEDRALS section. -/
structure DihedralEntry where
  atom1 : String
  atom2 : String
  atom3 : String
  atom4 : String
  kchi : ℚ
  mult : Nat
  delta : ℚ
  comments : List String
  line : Nat
deriving Repr, DecidableEq

/-- Parameter record of the IMPROPER section. -/
structure ImproperEntry where
  atom1 : String
  atom2 : String
  atom3 : String
  atom4 : String
  kpsi : ℚ
  psi0 : ℚ
  comments : List String
  line : Nat
deriving Repr, DecidableEq

/-- Python float conversion lifted to Except, modelling the uncaught
ValueError when a matched token is not a valid float (for instance a bare
dot). -/
def floatE (l : List Char) : Except String ℚ :=
  match pyFloat l with
  | some v => .ok v
  | none => .error ("could not convert string to float")

/-- Optional float conversion of the optional angle coefficients. -/
def floatOptE : Option (List Char) → Except String (Option ℚ)
  | none => .ok none
  | some t => (floatE t).map some

/-- One iteration of the parse_bonds_section state machine on one line,
given the absolute line number, the last-line-was-comment flag and the list
of finalized records; returns the updated flag and records.  A blank line
clears only the flag; a comment line is attached to the last record exactly
when a record exists and the flag is set; an unmatched data line changes
nothing at all. -/
def bondsStep (l : String) (n : Nat) (lwc : Bool) (acc : List BondEntry) :
    Except String (Bool × List BondEntry) :=
  let line := pyStrip l.toList
  if line.isEmpty then .ok (false, acc)
  else if line.take 1 = ['!'] then
    .ok (true,
      if acc ≠ [] ∧ lwc then
        updLast acc (fun e => { e with comments := e.comments ++ [String.mk (pyStrip (line.drop 1))] })
      else acc)
  else
    match matchBondLine line with
    | some (a1, a2, kb, b0, cmt) => do
      let kbV ← floatE kb
      let b0V ← floatE b0
      .ok (true, acc ++ [⟨String.mk a1, String.mk a2, kbV, b0V, seedComments cmt, n⟩])
    | none => .ok (lwc, acc)

/-- Line loop of parse_bonds_section. -/
def bondsGo : List String → Nat → Bool → List BondEntry → Except String (List BondEntry)
  | [], _, _, acc => .ok acc
  | l :: ls, n, lwc, acc =>
    match bondsStep l n lwc acc with
    | .error e => .error e
    | .ok (lwc2, acc2) => bondsGo ls (n + 1) lwc2 acc2

/-- Model of parse_bonds_section. -/
def parse_bonds_section (lines : List String) (start : Nat) : Except String (List BondEntry) :=
  bondsGo lines start false []

/-- State machine of parse_angles_section, same shape as the BONDS one. -/
def anglesGo : List String → Nat → Bool → List AngleEntry → Except String (List AngleEntry)
  | [], _, _, acc => .ok acc
  | l :: ls, n, lwc, acc =>
    let line := pyStrip l.toList
    if line.isEmpty then anglesGo ls (n + 1) false acc
    else if line.take 1 = ['!'] then
      anglesGo ls (n + 1) true
        (if acc ≠ [] ∧ lwc then
          updLast acc (fun e => { e with comments := e.comments ++ [String.mk (pyStrip (line.drop 1))] })
         else acc)
    else
      match matchAngleLine line with
      | some (a1, a2, a3, kt, t0, kub, s0, cmt) => do
        let ktV ← floatE kt
        let t0V ← floatE t0
        let kubV ← floatOptE kub
        let s0V ← floatOptE s0
        anglesGo ls (n + 1) true
          (acc ++ [⟨String.mk a1, String.mk a2, String.mk a3, ktV, t0V, kubV, s0V,
            seedComments cmt, n⟩])
      | none => anglesGo ls (n + 1) lwc acc

/-- Model of parse_angles_section. -/
def parse_angles_section (lines : List String) (start : Nat) : Except String (List AngleEntry) :=
  anglesGo lines start false []

/-- State machine of parse_dihedrals_section. -/
def dihedralsGo : List String → Nat → Bool → List DihedralEntry → Except String (List DihedralEntry)
  | [], _, _, acc => .ok acc
  | l :: ls, n, lwc, acc =>
    let line := pyStrip l.toList
    if line.isEmpty then dihedralsGo ls (n + 1) false acc
    else if line.take 1 = ['!'] then
      dihedralsGo ls (n + 1) true
        (if acc ≠ [] ∧ lwc then
          updLast acc (fun e => { e with comments := e.comments ++ [String.mk (pyStrip (line.drop 1))] })
         else acc)
    else
      match matchDihedralLine line with
      | some (a1, a2, a3, a4, kchi, mult, delta, cmt) => do
        let kchiV ← floatE kchi
        let deltaV ← floatE delta
        dihedralsGo ls (n + 1) true
          (acc ++ [⟨String.mk a1, String.mk a2, String.mk a3, String.mk a4, kchiV,
            digitsValN mult, deltaV, seedComments cmt, n⟩])
      | none => dihedralsGo ls (n + 1) lwc acc

/-- Model of parse_dihedrals_section. -/
def parse_dihedrals_section (lines : List String) (start : Nat) :
    Except String (List DihedralEntry) :=
  dihedralsGo lines start false []

/-- State machine of parse_impropers_section. -/
def impropersGo : List String → Nat → Bool → List ImproperEntry → Except String (List ImproperEntry)
  | [], _, _, acc => .ok acc
  | l :: ls, n, lwc, acc =>
    let line := pyStrip l.toList
    if line.isEmpty then impropersGo ls (n + 1) false acc
    else if line.take 1 = ['!'] then
      impropersGo ls (n + 1) true
        (if acc ≠ [] ∧ lwc then
          updLast acc (fun e => { e with comments := e.comments ++ [String.mk (pyStrip (line.drop 1))] })
         else acc)
    else
      match matchImproperLine line with
      | some (a1, a2, a3, a4, kpsi, psi0, cmt) => do
        let kpsiV ← floatE kpsi
        let psi0V ← floatE psi0
        impropersGo ls (n + 1) true
          (acc ++ [⟨String.mk a1, String.mk a2, String.mk a3, String.mk a4, kpsiV,
            psi0V, seedComments cmt, n⟩])
      | none => impropersGo ls (n + 1) lwc acc

/-- Model of parse_impropers_section. -/
def parse_impropers_section (lines : List String) (start : Nat) :
    Except String (List ImproperEntry) :=
  impropersGo lines start false []

/-- State machine of parse_atoms_section. -/
def atomsGo : List String → Nat → Bool → List AtomEntry → Except String (List AtomEntry)
  | [], _, _, acc => .ok acc
  | l :: ls, n, lwc, acc =>
    let line := pyStrip l.toList
    if line.isEmpty then atomsGo ls (n + 1) false acc
    else if line.take 1 = ['!'] then
      atomsGo ls (n + 1) true
        (if acc ≠ [] ∧ lwc then
          updLast acc (fun e => { e with comments := e.comments ++ [String.mk (pyStrip (line.drop 1))] })
         else acc)
    else
      match matchAtomLine line with
      | some (ff, mass, cmt) => do
        let massV ← floatE mass
        atomsGo ls (n + 1) true
          (acc ++ [⟨String.mk ff, massV, seedComments cmt, n⟩])
      | none => atomsGo ls (n + 1) lwc acc

/-- Model of parse_atoms_section. -/
def parse_atoms_section (lines : List String) (start : Nat) : Except String (List AtomEntry) :=
  atomsGo lines start false []

/-- Collected raw lines of one section together with the 0-based index plus
one of its header line (the start_line of the source). -/
structure SectionData where
  secLines : List String
  start : Nat
deriving Repr, DecidableEq

/-- First section header matching a line, in the fixed order of the
section_patterns dictionary; each pattern is a case-insensitive literal
anchored at the start of the stripped line. -/
def headerOf (l : String) : Option String :=
  (["ATOMS", "BONDS", "ANGLES", "DIHEDRALS", "IMPROPER", "CMAP"]).find?
    (fun n => ciHasPfx n.toList (pyStrip l.toList))

/-- Splitting pass of parse_charmm_parameter_file: walk the numbered lines,
a header starts a new section (saving the previous one when it has lines, a
repeated header name overwrites by dict assignment), other lines are
stripped and accumulated into the current section, lines before the first
header are discarded. -/
def splitGo : List String → Nat → Option String → List String → Nat →
    List (String × SectionData) → List (String × SectionData)
  | [], _, cur, curLines, curStart, secs =>
    match cur with
    | some name => if curLines ≠ [] then dictInsert secs name ⟨curLines, curStart⟩ else secs
    | none => secs
  | l :: ls, i, cur, curLines, curStart, secs =>
    match headerOf l with
    | some name =>
      let secs2 :=
        match cur with
        | some cname =>
          if curLines ≠ [] then dictInsert secs cname ⟨curLines, curStart⟩ else secs
        | none => secs
      splitGo ls (i + 1) (some name) [] (i + 1) secs2
    | none =>
      match cur with
      | some _ => splitGo ls (i + 1) cur (curLines ++ [String.mk (pyStrip l.toList)]) curStart secs
      | none => splitGo ls (i + 1) cur curLines curStart secs

/-- One parsed section table, the per-category DataFrame of the source. -/
inductive SecTable where
  | atomsT (rows : List AtomEntry)
  | bondsT (rows : List BondEntry)
  | anglesT (rows : List AngleEntry)
  | dihedralsT (rows : List DihedralEntry)
  | impropersT (rows : List ImproperEntry)
deriving Repr, DecidableEq

/-- Dispatch pass of parse_charmm_parameter_file: parse each located section
with its parser, started at start_line plus one; a CMAP section is located
but never parsed. -/
def chDispatch : List (String × SectionData) → List (String × SecTable) →
    Except String (List (String × SecTable))
  | [], out => .ok out
  | (name, sd) :: rest, out =>
    if name = "ATOMS" then do
      let t ← parse_atoms_section sd.secLines (sd.start + 1)
      chDispatch rest (dictInsert out ("ATOMS") (.atomsT t))
    else if name = "BONDS" then do
      let t ← parse_bonds_section sd.secLines (sd.start + 1)
      chDispatch rest (dictInsert out ("BONDS") (.bondsT t))
    else if name = "ANGLES" then do
      let t ← parse_angles_section sd.secLines (sd.start + 1)
      chDispatch rest (dictInsert out ("ANGLES") (.anglesT t))
    else if name = "DIHEDRALS" then do
      let t ← parse_dihedrals_section sd.secLines (sd.start + 1)
      chDispatch rest (dictInsert out ("DIHEDRALS") (.dihedralsT t))
    else if name = "IMPROPER" then do
      let t ← parse_impropers_section sd.secLines (sd.start + 1)
      chDispatch rest (dictInsert out ("IMPROPER") (.impropersT t))
    else chDispatch rest out

/-- Model of parse_charmm_parameter_file over the list of lines of the
file: locate the sections, then parse each with global line numbers. -/
def parse_charmm_parameter_file (lines : List String) :
    Except String (List (String × SecTable)) :=
  chDispatch (splitGo lines 0 none [] 0 []) []

/-! ## Parameter reconciliation, from tools/parameter_checker/parameter_checker.py

Derived topology keys (Python tuples of type labels) are modelled as lists
of strings so that one compare_parameters definition serves every arity,
exactly as the Python function does.  Of a CHARMM DataFrame the matcher
reads only the Atom i columns and the Line Number column, which is the
ParamRow view below. -/

/-- Row of a Match Result report. -/
structure MatchRow where
  parameter_type : String
  parameters : String
  found : Bool
  line_number : Option Nat
deriving Repr, DecidableEq

/-- Columns of a CHARMM parameter DataFrame row that the matcher reads. -/
structure ParamRow where
  atoms : List String
  line : Nat
deriving Repr, DecidableEq

/-- Model of the Python join of type labels with a dash. -/
def joinDash : List String → String
  | [] => ""
  | [x] => x
  | x :: xs => x ++ "-" ++ joinDash xs

/-- The six permutations of three elements in itertools order. -/
def perm3 {α : Type} (x y z : α) : List (α × α × α) :=
  [(x, y, z), (x, z, y), (y, x, z), (y, z, x), (z, x, y), (z, y, x)]

/-- Orientations generated for a query tuple by compare_parameters: bond and
dihedral use the tuple and its reverse, angle swaps the two ends around the
fixed center, improper keeps position two fixed and permutes the other
three; any other parameter type gets no orientations.  The angle and
improper arms index fixed positions of the tuple, which at every call site
has the matching arity; other arities yield no orientations in the model
(the source would raise an IndexError there). -/
def orientationsFor (pt : String) (key : List String) : List (List String) :=
  if pt = "bond" then [key, key.reverse]
  else if pt = "angle" then
    match key with
    | [a, b, c] => [[a, b, c], [c, b, a]]
    | _ => []
  else if pt = "dihedral" then [key, key.reverse]
  else if pt = "improper" then
    match key with
    | [a, b, c, d] => (perm3 a c d).map (fun t => [t.1, b, t.2.1, t.2.2])
    | _ => []
  else []

/-- Equal-or-wildcard test of one DataFrame row against one orientation,
positionally: the row field must equal the query label or be the literal X.
The source applies this test uniformly for every parameter type.  It reads
one Atom i column per orientation position; orientation arity and table
arity agree at every call site (the source would raise a KeyError on a
longer orientation, which no reachable call produces). -/
def rowMatches (orient : List String) (r : ParamRow) : Bool :=
  (orient.zip r.atoms).all (fun p => p.2 == p.1 || p.2 == "X")

/-- Line number of the first matching row of the first orientation that has
any matching row, the break of the source loop; none when no orientation
matches. -/
def findMatchLine (df : List ParamRow) (orients : List (List String)) : Option Nat :=
  orients.findSome? (fun o => (df.find? (rowMatches o)).map (fun r => r.line))

/-- Match Result row built for one derived key. -/
def mkRow (pt : String) (df : List ParamRow) (key : List String) : MatchRow :=
  let fm := findMatchLine df (orientationsFor pt key)
  ⟨pt, joinDash key, fm.isSome, fm⟩

/-- Model of compare_parameters: an empty derived map or an empty CHARMM
parameter set short-circuits to an empty result; otherwise one row per
derived key, in key order.  The isinstance string check of the source is
always true for keys of the derived topology maps, which the type of the
key makes intrinsic here. -/
def compare_parameters {α : Type} (pt : String) (mdf_params : List (List String × List String))
    (charmm_params : List α) (charmm_df : List ParamRow) : List MatchRow :=
  if mdf_params.isEmpty || charmm_params.isEmpty then []
  else mdf_params.map (fun kv => mkRow pt charmm_df kv.1)

/-- Model of compare_atoms: one row per queried atom type, matched by exact
equality on the Force Field Type column; never short-circuits.  The source
iterates a Python set of atom types, whose order is implementation defined;
the model takes the types as a list, which fixes a row order the claims (all
count or existence based) do not observe. -/
def compare_atoms (mdf_atoms : List String) (atoms_df : List AtomEntry) : List MatchRow :=
  mdf_atoms.map (fun a =>
    match atoms_df.find? (fun r => r.fftype == a) with
    | some r => ⟨"atom", a, true, some r.line⟩
    | none => ⟨"atom", a, false, none⟩)

/-- ParamRow view of a BondEntry. -/
def bondRow (e : BondEntry) : ParamRow := ⟨[e.atom1, e.atom2], e.line⟩

/-- ParamRow view of an AngleEntry. -/
def angleRow (e : AngleEntry) : ParamRow := ⟨[e.atom1, e.atom2, e.atom3], e.line⟩

/-- ParamRow view of a DihedralEntry. -/
def dihedralRow (e : DihedralEntry) : ParamRow := ⟨[e.atom1, e.atom2, e.atom3, e.atom4], e.line⟩

/-- Normalized CHARMM bond set built in main: sorted label pairs, as a set.
Python set iteration order is implementation defined; only emptiness of
these sets is ever observed by the comparison, so the model keeps first
occurrences. -/
def charmmBondSet (df : List BondEntry) : List (String × String) :=
  (df.map (fun r => sort2 r.atom1 r.atom2)).dedup

/-- Model of the Python two-argument min builtin on strings. -/
def minPy (a b : String) : String := if strLt b a then b else a

/-- Model of the Python two-argument max builtin on strings. -/
def maxPy (a b : String) : String := if strLt a b then b else a

/-- Normalized CHARMM angle set built in main: min end, center, max end. -/
def charmmAngleSet (df : List AngleEntry) : List (String × String × String) :=
  (df.map (fun r => (minPy r.atom1 r.atom3, r.atom2, maxPy r.atom1 r.atom3))).dedup

/-- Normalized CHARMM dihedral set built in main: lexicographic minimum of
the quadruple and its reverse. -/
def charmmDihedralSet (df : List DihedralEntry) : List Tup4 :=
  (df.map (fun r =>
    min4py (r.atom1, r.atom2, r.atom3, r.atom4) (r.atom4, r.atom3, r.atom2, r.atom1))).dedup

/-- Reconciliation step of main (the code after both parses): the report is
the atom rows followed by the bond, angle and dihedral rows.  The
mdf_angles and mdf_dihedrals normalized sets main also builds are dead
values (never passed to a comparison) and are not modelled.  Derived maps
arrive with list-of-label keys; main passes the tables of the parsed CHARMM
data, modelled here as the four entry lists. -/
def reconcile (mdf_atoms : List String)
    (bond_map angle_map dihedral_map : List (List String × List String))
    (atomsDf : List AtomEntry) (bondsDf : List BondEntry)
    (anglesDf : List AngleEntry) (dihedralsDf : List DihedralEntry) : List MatchRow :=
  compare_atoms mdf_atoms atomsDf
    ++ compare_parameters ("bond") bond_map (charmmBondSet bondsDf) (bondsDf.map bondRow)
    ++ compare_parameters ("angle") angle_map (charmmAngleSet anglesDf) (anglesDf.map angleRow)
    ++ compare_parameters ("dihedral") dihedral_map (charmmDihedralSet dihedralsDf)
        (dihedralsDf.map dihedralRow)

/-- Row count a category contributes to the report: zero when its derived
map or its CHARMM table is empty, otherwise one row per derived key. -/
def catRowCount (m : List (List String × List String)) (dfEmpty : Bool) : Nat :=
  if m.isEmpty || dfEmpty then 0 else m.length

/-- Provenance of an angle key: it was produced from a center atom entry b
and an unordered neighbor pair (a, c) of known atoms, with the center group
kept in the middle and the end groups sorted. -/
def angleProv (ad : List (String × AtomRec)) (k : String × String × String) : Prop :=
  ∃ b rb a c ra rc, (b, rb) ∈ ad ∧ List.lookup a ad = some ra ∧
    List.lookup c ad = some rc ∧ (a, c) ∈ ordPairs rb.neighbors ∧
    k = ((sort2 ra.charge_group rc.charge_group).1, rb.charge_group,
      (sort2 ra.charge_group rc.charge_group).2)

/-- Provenance of a dihedral path: four pairwise-distinct known atoms whose
identifiers form the recorded path. -/
def dihedralPathProp (ad : List (String × AtomRec)) (p : String) : Prop :=
  ∃ a b c d, distinct4 a b c d ∧ (List.lookup a ad).isSome ∧
    (List.lookup b ad).isSome ∧ (List.lookup c ad).isSome ∧
    (List.lookup d ad).isSome ∧ p = a ++ "-" ++ b ++ "-" ++ c ++ "-" ++ d

/-! ## Lemmas about the reconciliation matcher -/

theorem findSome?_isSome_of_mem {α β : Type} {f : α → Option β} {l : List α} {x : α}
    (hx : x ∈ l) (hfx : (f x).isSome) : (l.findSome? f).isSome := by
  induction l with
  | nil => cases hx
  | cons a t ih =>
    rw [List.findSome?_cons]
    cases h : f a with
    | some b => simp
    | none =>
      rcases List.mem_cons.mp hx with h1 | h1
      · subst h1; rw [h] at hfx; cases hfx
      · exact ih h1

theorem find?_isSome_of_mem {α : Type} {p : α → Bool} {l : List α} {x : α}
    (hx : x ∈ l) (hpx : p x = true) : (l.find? p).isSome := by
  induction l with
  | nil => cases hx
  | cons a t ih =>
    rw [List.find?_cons]
    cases h : p a with
    | true => simp
    | false =>
      rcases List.mem_cons.mp hx with h1 | h1
      · subst h1; rw [h] at hpx; cases hpx
      · exact ih h1

/-- Shared matching lemma: when some orientation of a key that occurs in the
derived map has an equal-or-wildcard matching row in the table, and the
CHARMM set is nonempty, then the report contains a found row for the key. -/
theorem compare_parameters_found {α : Type} (pt : String)
    (mdf : List (List String × List String)) (cs : List α) (df : List ParamRow)
    (key : List String) (ps : List String)
    (hmem : (key, ps) ∈ mdf) (hcs : cs ≠ [])
    (hex : ∃ o ∈ orientationsFor pt key, ∃ r ∈ df, rowMatches o r = true) :
    ∃ row ∈ compare_parameters pt mdf cs df,
      row.parameters = joinDash key ∧ row.found = true := by
  have hmdf : mdf.isEmpty = false := by
    cases mdf with
    | nil => cases hmem
    | cons a t => rfl
  have hcs2 : cs.isEmpty = false := by
    cases cs with
    | nil => exact absurd rfl hcs
    | cons a t => rfl
  have hfound : (findMatchLine df (orientationsFor pt key)).isSome := by
    obtain ⟨o, ho, r, hr, hmatch⟩ := hex
    refine findSome?_isSome_of_mem ho ?_
    have := find?_isSome_of_mem hr hmatch
    cases h : df.find? (rowMatches o) with
    | none => rw [h] at this; cases this
    | some r0 => simp
  refine ⟨mkRow pt df key, ?_, rfl, ?_⟩
  · unfold compare_parameters
    rw [hmdf, hcs2]
    simp only [Bool.or_self, Bool.false_eq_true, if_false]
    exact List.mem_map.mpr ⟨(key, ps), hmem, rfl⟩
  · unfold mkRow
    simpa using hfound

theorem rowMatches_of_pointwise {qs : List String} {r : ParamRow}
    (h : ∀ p ∈ qs.zip r.atoms, p.2 = p.1 ∨ p.2 = "X") : rowMatches qs r = true := by
  unfold rowMatches
  rw [List.all_eq_true]
  intro p hp
  rcases h p hp with h1 | h1 <;> simp [h1]

theorem mem_zip_self {α : Type} : ∀ {l : List α} {p : α × α}, p ∈ l.zip l → p.1 = p.2 := by
  intro l
  induction l with
  | nil => intro p hp; cases hp
  | cons x t ih =>
    intro p hp
    rcases List.mem_cons.mp hp with h | h
    · rw [h]
    · exact ih h

theorem rowMatches_self {key : List String} {r : ParamRow} (h : r.atoms = key) :
    rowMatches key r = true := by
  refine rowMatches_of_pointwise ?_
  intro p hp
  rw [h] at hp
  exact Or.inl (mem_zip_self hp).symm

/-- C3: for every derived bond tuple in the derived topology and every bond
parameter record of the table whose two type labels are the reverse of the
tuple, the reconciliation report contains a found = true row for that
tuple: bond matching accepts the tuple or its reverse. -/
theorem claim_C3 (t1 t2 : String) (mdf_atoms : List String)
    (bm am dm : List (List String × List String)) (aDf : List AtomEntry)
    (bDf : List BondEntry) (gDf : List AngleEntry) (dDf : List DihedralEntry)
    (r : BondEntry) (ps : List String)
    (hmem : ([t1, t2], ps) ∈ bm) (hr : r ∈ bDf) (h1 : r.atom1 = t2) (h2 : r.atom2 = t1) :
    ∃ row ∈ reconcile mdf_atoms bm am dm aDf bDf gDf dDf,
      row.parameters = t1 ++ "-" ++ t2 ∧ row.found = true := by
  have hcs : charmmBondSet bDf ≠ [] := by
    unfold charmmBondSet
    intro h0
    have hmnil := (List.dedup_eq_nil _).mp h0
    rw [List.map_eq_nil_iff] at hmnil
    rw [hmnil] at hr
    cases hr
  have hrowmem : bondRow r ∈ bDf.map bondRow := List.mem_map_of_mem bondRow hr
  have hats : (bondRow r).atoms = [t2, t1] := by
    unfold bondRow
    rw [h1, h2]
  have horel : orientationsFor ("bond") [t1, t2] = [[t1, t2], [t2, t1]] := rfl
  have h := compare_parameters_found ("bond") bm (charmmBondSet bDf) (bDf.map bondRow)
    [t1, t2] ps hmem hcs
    ⟨[t2, t1], by rw [horel]; simp, bondRow r, hrowmem, rowMatches_self hats⟩
  obtain ⟨row, hrow, hparam, hfound⟩ := h
  refine ⟨row, ?_, by simpa using hparam, hfound⟩
  unfold reconcile
  simp only [List.mem_append]
  exact Or.inl (Or.inl (Or.inr hrow))

/-- Witness for C3 at the scenario of the specification: derived bond
(H, C) against a record (C, H). -/
theorem claim_C3_witness :
    ∃ row ∈ reconcile [] [((["H", "C"] : List String), ([] : List String))] [] []
      [] [⟨"C", "H", mkRat 340 1, mkRat 109 100, [], 7⟩] [] [],
      row.parameters = "H" ++ "-" ++ "C" ∧ row.found = true :=
  claim_C3 ("H") ("C") [] _ [] [] [] _ [] []
    ⟨"C", "H", mkRat 340 1, mkRat 109 100, [], 7⟩ []
    (by decide) (by decide) rfl rfl

/-- C4 counterexample: a bond record with the wildcard X in the first field
matches the derived bond (H, C) even though neither orientation matches it
literally, so the wildcard token is honored for the bond category too,
contrary to the claim that bond and angle compare the wildcard token only by
literal equality. -/
theorem claim_C4_cex :
    compare_parameters ("bond") [((["H", "C"] : List String), ([] : List String))]
      [(("C" : String), ("X" : String))] [⟨["X", "C"], 5⟩]
      = [⟨"bond", "H-C", true, some 5⟩] := by decide

/-- C4 amended: the equal-or-wildcard field test is applied uniformly in
every category, so a record field holding the wildcard token matches any
concrete label in that position for bond and angle queries as well. -/
theorem claim_C4_amended :
    (∀ (q1 q2 a1 a2 : String) (mdf : List (List String × List String))
      (cs : List (String × String)) (df : List ParamRow) (r : ParamRow) (ps : List String),
      ([q1, q2], ps) ∈ mdf → cs ≠ [] → r ∈ df → r.atoms = [a1, a2] →
      (a1 = q1 ∨ a1 = "X") → (a2 = q2 ∨ a2 = "X") →
      ∃ row ∈ compare_parameters ("bond") mdf cs df,
        row.parameters = joinDash [q1, q2] ∧ row.found = true)
    ∧ (∀ (q1 q2 q3 a1 a2 a3 : String) (mdf : List (List String × List String))
      (cs : List (String × String × String)) (df : List ParamRow) (r : ParamRow)
      (ps : List String),
      ([q1, q2, q3], ps) ∈ mdf → cs ≠ [] → r ∈ df → r.atoms = [a1, a2, a3] →
      (a1 = q1 ∨ a1 = "X") → (a2 = q2 ∨ a2 = "X") → (a3 = q3 ∨ a3 = "X") →
      ∃ row ∈ compare_parameters ("angle") mdf cs df,
        row.parameters = joinDash [q1, q2, q3] ∧ row.found = true) := by
  constructor
  · intro q1 q2 a1 a2 mdf cs df r ps hmem hcs hr hats h1 h2
    have horel : orientationsFor ("bond") [q1, q2] = [[q1, q2], [q2, q1]] := rfl
    refine compare_parameters_found ("bond") mdf cs df [q1, q2] ps hmem hcs
      ⟨[q1, q2], by rw [horel]; simp, r, hr, ?_⟩
    refine rowMatches_of_pointwise ?_
    rw [hats]
    intro p hp
    rcases List.mem_cons.mp hp with h | h
    · rw [h]; exact h1
    · rcases List.mem_cons.mp h with h0 | h0
      · rw [h0]; exact h2
      · cases h0
  · intro q1 q2 q3 a1 a2 a3 mdf cs df r ps hmem hcs hr hats h1 h2 h3
    have horel : orientationsFor ("angle") [q1, q2, q3] = [[q1, q2, q3], [q3, q2, q1]] := rfl
    refine compare_parameters_found ("angle") mdf cs df [q1, q2, q3] ps hmem hcs
      ⟨[q1, q2, q3], by rw [horel]; simp, r, hr, ?_⟩
    refine rowMatches_of_pointwise ?_
    rw [hats]
    intro p hp
    rcases List.mem_cons.mp hp with h | h
    · rw [h]; exact h1
    · rcases List.mem_cons.mp h with h0 | h0
      · rw [h0]; exact h2
      · rcases List.mem_cons.mp h0 with h4 | h4
        · rw [h4]; exact h3
        · cases h4

/-- Witness for the amended C4: a bond record (X, C) is found for the
derived bond (H, C) through the wildcard. -/
theorem claim_C4_amended_witness :
    ∃ row ∈ compare_parameters ("bond")
      [((["H", "C"] : List String), ([] : List String))]
      [(("C" : String), ("X" : String))] [⟨["X", "C"], 5⟩],
      row.parameters = joinDash ["H", "C"] ∧ row.found = true :=
  claim_C4_amended.1 ("H") ("C") ("X") ("C") _ _ _ ⟨["X", "C"], 5⟩ []
    (by decide) (by decide) (by decide) rfl (Or.inr rfl) (Or.inl rfl)

/-- C1 counterexample: one derived bond tuple and an empty CHARMM BONDS
table; the claim predicts one Match Result row (one distinct derived tuple,
no queried atom types), but compare_parameters short-circuits on the empty
parameter set and the report has zero rows. -/
theorem claim_C1_cex :
    (reconcile [] [((["A", "B"] : List String), (["a1-a2"] : List String))]
      [] [] [] [] [] []).length ≠ 1 := by decide

theorem dedup_map_isEmpty {α β : Type} [DecidableEq β] (f : α → β) (l : List α) :
    ((l.map f).dedup).isEmpty = l.isEmpty := by
  cases l with
  | nil => rfl
  | cons a t =>
    have h : (f a :: t.map f).dedup ≠ [] := by
      intro h0
      have := (List.dedup_eq_nil _).mp h0
      cases this
    show ((f a :: t.map f).dedup).isEmpty = false
    cases he : (f a :: t.map f).dedup with
    | nil => exact absurd he h
    | cons b u => rfl

theorem compare_parameters_length {α : Type} (pt : String)
    (mdf : List (List String × List String)) (cs : List α) (df : List ParamRow) :
    (compare_parameters pt mdf cs df).length =
      if mdf.isEmpty || cs.isEmpty then 0 else mdf.length := by
  unfold compare_parameters
  by_cases h : (mdf.isEmpty || cs.isEmpty) = true
  · rw [if_pos h, if_pos h]; rfl
  · rw [if_neg h, if_neg h, List.length_map]

/-- C1 amended: the report length is the number of queried atom types plus,
for each of the bond, angle and dihedral categories, the number of distinct
derived tuples when both the derived map and the CHARMM table of the
category are nonempty and zero otherwise: a category whose CHARMM table is
empty contributes no rows even when derived tuples exist. -/
theorem claim_C1_amended (mdf_atoms : List String)
    (bm am dm : List (List String × List String))
    (aDf : List AtomEntry) (bDf : List BondEntry) (gDf : List AngleEntry)
    (dDf : List DihedralEntry)
    (_hnodupA : mdf_atoms.Nodup) (_hnodupB : (bm.map Prod.fst).Nodup)
    (_hnodupG : (am.map Prod.fst).Nodup) (_hnodupD : (dm.map Prod.fst).Nodup) :
    (reconcile mdf_atoms bm am dm aDf bDf gDf dDf).length =
      mdf_atoms.length + catRowCount bm bDf.isEmpty
        + catRowCount am gDf.isEmpty + catRowCount dm dDf.isEmpty := by
  unfold reconcile catRowCount
  rw [List.length_append, List.length_append, List.length_append]
  rw [compare_parameters_length, compare_parameters_length, compare_parameters_length]
  unfold charmmBondSet charmmAngleSet charmmDihedralSet
  rw [dedup_map_isEmpty, dedup_map_isEmpty, dedup_map_isEmpty]
  unfold compare_atoms
  rw [List.length_map]

/-- Witness for the amended C1: one atom type, one derived bond with a
one-row BONDS table, one derived angle with an empty ANGLES table. -/
theorem claim_C1_amended_witness :
    (reconcile ["H"] [((["A", "B"] : List String), ([] : List String))]
      [((["A", "B", "C"] : List String), ([] : List String))] []
      [] [⟨"A", "B", 1, 1, [], 3⟩] [] []).length =
      (["H"] : List String).length
        + catRowCount [((["A", "B"] : List String), ([] : List String))] false
        + catRowCount [((["A", "B", "C"] : List String), ([] : List String))] true
        + catRowCount [] true := by
  have h := claim_C1_amended ["H"] [((["A", "B"] : List String), ([] : List String))]
    [((["A", "B", "C"] : List String), ([] : List String))] []
    [] [⟨"A", "B", 1, 1, [], 3⟩] [] []
    (by decide) (by decide) (by decide) (by decide)
  simpa using h

/-! ## Lemmas about the topology deriver -/

theorem foldlInv {α σ : Type} (P : σ → Prop) (f : σ → α → σ) :
    ∀ (l : List α) (s : σ), P s → (∀ s2 a, a ∈ l → P s2 → P (f s2 a)) → P (l.foldl f s) := by
  intro l
  induction l with
  | nil => intro s hs _; exact hs
  | cons a t ih =>
    intro s hs hstep
    exact ih (f s a) (hstep s a (List.mem_cons_self a t) hs)
      (fun s2 b hb => hstep s2 b (List.mem_cons_of_mem a hb))

theorem mapAppend_inv {K : Type} [DecidableEq K] (PK : K → Prop) (PV : String → Prop) :
    ∀ (m : List (K × List String)) (k : K) (v : String),
      (∀ kv ∈ m, PK kv.1 ∧ ∀ p ∈ kv.2, PV p) → PK k → PV v →
      ∀ kv ∈ mapAppend m k v, PK kv.1 ∧ ∀ p ∈ kv.2, PV p := by
  intro m
  induction m with
  | nil =>
    intro k v _ hk hv kv hkv
    rcases List.mem_singleton.mp hkv with rfl
    refine ⟨hk, ?_⟩
    intro p hp
    rcases List.mem_singleton.mp hp with rfl
    exact hv
  | cons e rest ih =>
    intro k v hm hk hv kv hkv
    obtain ⟨k0, ps⟩ := e
    unfold mapAppend at hkv
    by_cases he : k0 = k
    · rw [if_pos he] at hkv
      rcases List.mem_cons.mp hkv with rfl | h
      · refine ⟨(hm (k0, ps) (List.mem_cons_self _ _)).1, ?_⟩
        intro p hp
        rcases List.mem_append.mp hp with h1 | h1
        · exact (hm (k0, ps) (List.mem_cons_self _ _)).2 p h1
        · rcases List.mem_singleton.mp h1 with rfl
          exact hv
      · exact hm kv (List.mem_cons_of_mem _ h)
    · rw [if_neg he] at hkv
      rcases List.mem_cons.mp hkv with rfl | h
      · exact hm (k0, ps) (List.mem_cons_self _ _)
      · exact ih k v (fun kv2 h2 => hm kv2 (List.mem_cons_of_mem _ h2)) hk hv kv h

theorem listLtB_irrefl : ∀ l : List Char, listLtB l l = false := by
  intro l
  induction l with
  | nil => rfl
  | cons c cs ih =>
    unfold listLtB
    rw [if_neg (lt_irrefl c), if_neg (lt_irrefl c)]
    exact ih

theorem listLtB_asymm : ∀ {a b : List Char}, listLtB a b = true → listLtB b a = false := by
  intro a
  induction a with
  | nil =>
    intro b h
    cases b with
    | nil => cases h
    | cons d ds => rfl
  | cons c cs ih =>
    intro b h
    cases b with
    | nil => cases h
    | cons d ds =>
      unfold listLtB at h ⊢
      by_cases h1 : c < d
      · rw [if_neg (lt_asymm h1), if_pos h1]
      · rw [if_neg h1] at h
        by_cases h2 : d < c
        · rw [if_pos h2] at h; cases h
        · rw [if_neg h2] at h
          rw [if_neg h2, if_neg h1]
          exact ih h

theorem strLt_irrefl (a : String) : ¬ strLt a a := by
  intro h
  simp only [strLt, listLtB_irrefl] at h
  cases h

theorem strLt_asymm {a b : String} (h : strLt a b) : ¬ strLt b a := by
  intro h2
  simp only [strLt] at h h2
  rw [listLtB_asymm h] at h2
  cases h2

theorem sort2_le (a b : String) : strLe (sort2 a b).1 (sort2 a b).2 := by
  unfold sort2
  split
  · next h => exact strLt_asymm h
  · next h => exact h

theorem rev4_rev4 (t : Tup4) : rev4 (rev4 t) = t := rfl

theorem tupLt4_asymm {x y : Tup4} (h : tupLt4 x y) : ¬ tupLt4 y x := by
  obtain ⟨x1, x2, x3, x4⟩ := x
  obtain ⟨y1, y2, y3, y4⟩ := y
  simp only [tupLt4] at *
  rintro (h2 | ⟨e21, h2 | ⟨e22, h2 | ⟨e23, h2⟩⟩⟩) <;>
    rcases h with h | ⟨e11, h | ⟨e12, h | ⟨e13, h⟩⟩⟩ <;>
    first
      | exact strLt_asymm h h2
      | (rw [e21] at h; exact strLt_irrefl _ h)
      | (rw [e22] at h; exact strLt_irrefl _ h)
      | (rw [e23] at h; exact strLt_irrefl _ h)
      | (rw [e11] at h2; exact strLt_irrefl _ h2)
      | (rw [e12] at h2; exact strLt_irrefl _ h2)
      | (rw [e13] at h2; exact strLt_irrefl _ h2)

/-- The emitted dihedral key is a fixed point of canonicalization: taking
the minimum with its own reverse returns it unchanged. -/
theorem min4py_canon (f : Tup4) :
    min4py (min4py f (rev4 f)) (rev4 (min4py f (rev4 f))) = min4py f (rev4 f) := by
  unfold min4py
  by_cases h : tupLt4 (rev4 f) f
  · rw [if_pos h, rev4_rev4, if_neg (tupLt4_asymm h)]
  · rw [if_neg h, if_neg h]

theorem bondPass_inv (ad : List (String × AtomRec)) :
    ∀ kv ∈ bondPass ad, strLe kv.1.1 kv.1.2 := by
  unfold bondPass
  refine foldlInv (fun s : List ((String × String) × List String) => ∀ kv ∈ s, strLe kv.1.1 kv.1.2) _ ad [] ?_ ?_
  · intro kv h; cases h
  · intro s entry _ hs
    refine foldlInv (fun s : List ((String × String) × List String) => ∀ kv ∈ s, strLe kv.1.1 kv.1.2) _ entry.2.neighbors s hs ?_
    intro s2 nbr _ hs2
    cases hlk : List.lookup nbr ad with
    | none => simp only [hlk]; exact hs2
    | some recB =>
      simp only [hlk]
      intro kv hkv
      have hmap := mapAppend_inv (fun k : String × String => strLe k.1 k.2) (fun _ => True)
        s2 (sort2 entry.2.charge_group recB.charge_group) (entry.1 ++ "-" ++ nbr)
        (fun kv2 h2 => ⟨hs2 kv2 h2, fun _ _ => trivial⟩) (sort2_le _ _) trivial
      exact (hmap kv hkv).1

theorem anglePass_inv (ad : List (String × AtomRec)) :
    ∀ kv ∈ anglePass ad, strLe kv.1.1 kv.1.2.2 ∧ angleProv ad kv.1 := by
  unfold anglePass
  refine foldlInv (fun s : List ((String × String × String) × List String) =>
      ∀ kv ∈ s, strLe kv.1.1 kv.1.2.2 ∧ angleProv ad kv.1) _ ad [] ?_ ?_
  · intro kv h; cases h
  · intro s entry hentry hs
    refine foldlInv (fun s : List ((String × String × String) × List String) =>
        ∀ kv ∈ s, strLe kv.1.1 kv.1.2.2 ∧ angleProv ad kv.1)
      _ (ordPairs entry.2.neighbors) s hs ?_
    intro s2 pr hpr hs2
    cases hlk1 : List.lookup pr.1 ad with
    | none => simp only [hlk1]; exact hs2
    | some ra =>
      cases hlk2 : List.lookup pr.2 ad with
      | none => simp only [hlk1, hlk2]; exact hs2
      | some rc =>
        simp only [hlk1, hlk2]
        intro kv hkv
        have hk : strLe ((sort2 ra.charge_group rc.charge_group).1, entry.2.charge_group,
            (sort2 ra.charge_group rc.charge_group).2).1
              ((sort2 ra.charge_group rc.charge_group).1, entry.2.charge_group,
            (sort2 ra.charge_group rc.charge_group).2).2.2 ∧
            angleProv ad ((sort2 ra.charge_group rc.charge_group).1,
              entry.2.charge_group, (sort2 ra.charge_group rc.charge_group).2) := by
          refine ⟨sort2_le _ _, ?_⟩
          exact ⟨entry.1, entry.2, pr.1, pr.2, ra, rc, hentry, hlk1, hlk2, hpr, rfl⟩
        have hmap := mapAppend_inv
          (fun k : String × String × String => strLe k.1 k.2.2 ∧ angleProv ad k)
          (fun _ => True) s2
          ((sort2 ra.charge_group rc.charge_group).1, entry.2.charge_group,
            (sort2 ra.charge_group rc.charge_group).2)
          (pr.1 ++ "-" ++ entry.1 ++ "-" ++ pr.2)
          (fun kv2 h2 => ⟨hs2 kv2 h2, fun _ _ => trivial⟩) hk trivial
        exact (hmap kv hkv).1

theorem dihedralPass_inv (ad : List (String × AtomRec)) :
    ∀ kv ∈ dihedralPass ad,
      min4py kv.1 (rev4 kv.1) = kv.1 ∧ ∀ p ∈ kv.2, dihedralPathProp ad p := by
  unfold dihedralPass
  refine foldlInv (fun s : List (Tup4 × List String) => ∀ kv ∈ s,
      min4py kv.1 (rev4 kv.1) = kv.1 ∧ ∀ p ∈ kv.2, dihedralPathProp ad p)
    _ (bondPairs ad) [] ?_ ?_
  · intro kv h; cases h
  · intro s bp _ hs
    cases hlkb : List.lookup bp.1 ad with
    | none => simp only [hlkb]; exact hs
    | some rb =>
      cases hlkc : List.lookup bp.2 ad with
      | none => simp only [hlkb, hlkc]; exact hs
      | some rc =>
        simp only [hlkb, hlkc]
        refine foldlInv (fun s : List (Tup4 × List String) => ∀ kv ∈ s,
            min4py kv.1 (rev4 kv.1) = kv.1 ∧ ∀ p ∈ kv.2, dihedralPathProp ad p)
          _ _ s hs ?_
        intro s2 aL _ hs2
        cases hlka : List.lookup aL ad with
        | none => simp only [hlka]; exact hs2
        | some ra =>
          simp only [hlka]
          refine foldlInv (fun s : List (Tup4 × List String) => ∀ kv ∈ s,
              min4py kv.1 (rev4 kv.1) = kv.1 ∧ ∀ p ∈ kv.2, dihedralPathProp ad p)
            _ _ s2 hs2 ?_
          intro s3 dL _ hs3
          cases hlkd : List.lookup dL ad with
          | none => simp only [hlkd]; exact hs3
          | some rd =>
            simp only [hlkd]
            by_cases hdist : distinct4 aL bp.1 bp.2 dL
            · rw [if_pos hdist]
              intro kv hkv
              have hpath : dihedralPathProp ad
                  (aL ++ "-" ++ bp.1 ++ "-" ++ bp.2 ++ "-" ++ dL) :=
                ⟨aL, bp.1, bp.2, dL, hdist,
                  by rw [hlka]; rfl, by rw [hlkb]; rfl, by rw [hlkc]; rfl,
                  by rw [hlkd]; rfl, rfl⟩
              have hmap := mapAppend_inv (fun k : Tup4 => min4py k (rev4 k) = k)
                (dihedralPathProp ad) s3
                (min4py (ra.charge_group, rb.charge_group, rc.charge_group, rd.charge_group)
                  (rev4 (ra.charge_group, rb.charge_group, rc.charge_group, rd.charge_group)))
                (aL ++ "-" ++ bp.1 ++ "-" ++ bp.2 ++ "-" ++ dL)
                hs3 (min4py_canon _) hpath
              exact hmap kv hkv
            · rw [if_neg hdist]; exact hs3

/-- C2: every tuple produced by the topology deriver is canonical: bond
pairs are sorted, angle triples keep the center group of the generating
center atom in the middle with sorted ends, and dihedral quadruples are
fixed points of the minimum-with-reverse canonicalization. -/
theorem claim_C2 (ad : List (String × AtomRec)) :
    (∀ kv ∈ (extract_topology ad).1, strLe kv.1.1 kv.1.2) ∧
    (∀ kv ∈ (extract_topology ad).2.1, strLe kv.1.1 kv.1.2.2 ∧ angleProv ad kv.1) ∧
    (∀ kv ∈ (extract_topology ad).2.2, min4py kv.1 (rev4 kv.1) = kv.1) :=
  ⟨bondPass_inv ad, anglePass_inv ad, fun kv h => (dihedralPass_inv ad kv h).1⟩

/-- Witness for C2 at a concrete four-atom chain. -/
theorem claim_C2_witness :
    strLe ("A") ("B") ∧
    strLe ((("A", "B", "C") : String × String × String)).1 (("A", "B", "C")).2.2 ∧
    min4py (("A", "B", "C", "D") : Tup4) (rev4 ("A", "B", "C", "D")) = ("A", "B", "C", "D") := by
  have h := claim_C2 [("a1", ⟨"A", ["a2"]⟩), ("a2", ⟨"B", ["a1", "a3"]⟩),
    ("a3", ⟨"C", ["a2", "a4"]⟩), ("a4", ⟨"D", ["a3"]⟩)]
  refine ⟨h.1 (("A", "B"), ["a1-a2", "a2-a1"]) (by decide),
    (h.2.1 (("A", "B", "C"), ["a1-a2-a3"]) (by decide)).1,
    h.2.2 (("A", "B", "C", "D"), ["a1-a2-a3-a4"]) (by decide)⟩

/-- C7: every dihedral path recorded by the topology deriver arises from
four pairwise-distinct atoms of the Connectivity Model. -/
theorem claim_C7 (ad : List (String × AtomRec)) :
    ∀ kv ∈ (extract_topology ad).2.2, ∀ p ∈ kv.2, dihedralPathProp ad p :=
  fun kv h p hp => (dihedralPass_inv ad kv h).2 p hp

/-- Witness for C7 at the concrete four-atom chain. -/
theorem claim_C7_witness :
    dihedralPathProp [("a1", ⟨"A", ["a2"]⟩), ("a2", ⟨"B", ["a1", "a3"]⟩),
      ("a3", ⟨"C", ["a2", "a4"]⟩), ("a4", ⟨"D", ["a3"]⟩)] ("a1-a2-a3-a4") :=
  claim_C7 _ (("A", "B", "C", "D"), ["a1-a2-a3-a4"]) (by decide) ("a1-a2-a3-a4") (by decide)

/-! ## Lemmas about the character-level string primitives -/

theorem dropWhile_noWs {l : List Char} (h : ∀ c ∈ l, pyIsWs c = false) :
    l.dropWhile pyIsWs = l := by
  cases l with
  | nil => rfl
  | cons c cs => simp [List.dropWhile_cons, h c (List.mem_cons_self c cs)]

theorem lstripWs_noWs {l : List Char} (h : ∀ c ∈ l, pyIsWs c = false) :
    lstripWs l = l := dropWhile_noWs h

theorem rstripWs_noWs {l : List Char} (h : ∀ c ∈ l, pyIsWs c = false) :
    rstripWs l = l := by
  unfold rstripWs
  rw [dropWhile_noWs (fun c hc => h c (List.mem_reverse.mp hc)), List.reverse_reverse]

theorem pyStrip_noWs {l : List Char} (h : ∀ c ∈ l, pyIsWs c = false) :
    pyStrip l = l := by
  unfold pyStrip
  rw [lstripWs_noWs h, rstripWs_noWs h]

theorem rstripWs_cons_nonWs {c : Char} (l : List Char) (h : pyIsWs c = false) :
    rstripWs (c :: l) = c :: rstripWs l := by
  unfold rstripWs
  rw [show (c :: l).reverse = l.reverse ++ [c] from by simp]
  rw [List.dropWhile_append]
  by_cases he : (l.reverse.dropWhile pyIsWs).isEmpty
  · rw [if_pos he]
    rw [show List.dropWhile pyIsWs [c] = [c] from by simp [List.dropWhile_cons, h]]
    have he2 : l.reverse.dropWhile pyIsWs = [] := by
      cases h0 : l.reverse.dropWhile pyIsWs with
      | nil => rfl
      | cons x xs => rw [h0] at he; cases he
    rw [he2]
    rfl
  · rw [if_neg he]
    simp

theorem lstripWs_cons_nonWs {c : Char} (l : List Char) (h : pyIsWs c = false) :
    lstripWs (c :: l) = c :: l := by
  unfold lstripWs
  simp [List.dropWhile_cons, h]

theorem wsSplitGo_noWs : ∀ (l acc : List Char), (∀ c ∈ acc, pyIsWs c = false) →
    ∀ t ∈ wsSplitGo l acc, ∀ c ∈ t, pyIsWs c = false := by
  intro l
  induction l with
  | nil =>
    intro acc hacc t ht c hc
    unfold wsSplitGo at ht
    by_cases hae : acc.isEmpty
    · rw [if_pos hae] at ht; cases ht
    · rw [if_neg hae] at ht
      rcases List.mem_singleton.mp ht with rfl
      exact hacc c (List.mem_reverse.mp hc)
  | cons a as ih =>
    intro acc hacc t ht
    unfold wsSplitGo at ht
    by_cases hws : pyIsWs a
    · rw [if_pos hws] at ht
      by_cases hae : acc.isEmpty
      · rw [if_pos hae] at ht
        exact ih [] (by intro c hc; cases hc) t ht
      · rw [if_neg hae] at ht
        rcases List.mem_cons.mp ht with rfl | h2
        · intro c hc; exact hacc c (List.mem_reverse.mp hc)
        · exact ih [] (by intro c hc; cases hc) t h2
    · rw [if_neg hws] at ht
      refine ih (a :: acc) ?_ t ht
      intro c hc
      rcases List.mem_cons.mp hc with rfl | h2
      · exact Bool.eq_false_iff.mpr hws
      · exact hacc c h2

theorem pySplitWs_noWs {l : List Char} :
    ∀ t ∈ pySplitWs l, ∀ c ∈ t, pyIsWs c = false :=
  wsSplitGo_noWs l [] (by intro c hc; cases hc)

theorem wsSplitGo_single : ∀ (l acc : List Char), (∀ c ∈ l, pyIsWs c = false) →
    (acc = [] → l ≠ []) → wsSplitGo l acc = [acc.reverse ++ l] := by
  intro l
  induction l with
  | nil =>
    intro acc _ hne
    unfold wsSplitGo
    have hae : acc.isEmpty = false := by
      cases acc with
      | nil => exact absurd rfl (hne rfl)
      | cons x xs => rfl
    rw [hae]
    simp
  | cons a as ih =>
    intro acc h _
    unfold wsSplitGo
    have hws : pyIsWs a = false := h a (List.mem_cons_self a as)
    rw [hws]
    show wsSplitGo as (a :: acc) = [acc.reverse ++ a :: as]
    rw [ih (a :: acc) (fun c hc => h c (List.mem_cons_of_mem a hc)) (by intro h0; cases h0)]
    simp

theorem pySplitWs_single {l : List Char} (h : ∀ c ∈ l, pyIsWs c = false) (hne : l ≠ []) :
    pySplitWs l = [l] := by
  unfold pySplitWs
  rw [wsSplitGo_single l [] h (fun _ => hne)]
  simp

theorem chSplitGo_mem : ∀ (sep : Char) (l acc : List Char),
    ∀ t ∈ chSplitGo sep l acc, ∀ c ∈ t, c ∈ acc ∨ c ∈ l := by
  intro sep l
  induction l with
  | nil =>
    intro acc t ht c hc
    unfold chSplitGo at ht
    rcases List.mem_singleton.mp ht with rfl
    exact Or.inl (List.mem_reverse.mp hc)
  | cons a as ih =>
    intro acc t ht c hc
    unfold chSplitGo at ht
    by_cases hsep : a == sep
    · rw [if_pos hsep] at ht
      rcases List.mem_cons.mp ht with rfl | h2
      · exact Or.inl (List.mem_reverse.mp hc)
      · rcases ih [] t h2 c hc with h3 | h3
        · cases h3
        · exact Or.inr (List.mem_cons_of_mem a h3)
    · rw [if_neg hsep] at ht
      rcases ih (a :: acc) t ht c hc with h3 | h3
      · rcases List.mem_cons.mp h3 with rfl | h4
        · exact Or.inr (List.mem_cons_self c as)
        · exact Or.inl h4
      · exact Or.inr (List.mem_cons_of_mem a h3)

theorem pySplitChar_mem {sep : Char} {l : List Char} :
    ∀ t ∈ pySplitChar sep l, ∀ c ∈ t, c ∈ l := by
  intro t ht c hc
  rcases chSplitGo_mem sep l [] t ht c hc with h | h
  · cases h
  · exact h

theorem mk_eq_qmark {c : List Char} (h : String.mk c = "?") : c = ['?'] := by
  have := congrArg String.data h
  simpa using this

/-! ## Lemmas about the connectivity parser -/

theorem dictInsert_cases {V : Type} :
    ∀ (m : List (String × V)) (k : String) (v : V) (kv : String × V),
      kv ∈ dictInsert m k v → kv ∈ m ∨ kv = (k, v) := by
  intro m
  induction m with
  | nil =>
    intro k v kv hkv
    rcases List.mem_singleton.mp hkv with rfl
    exact Or.inr rfl
  | cons e rest ih =>
    intro k v kv hkv
    obtain ⟨k0, v0⟩ := e
    unfold dictInsert at hkv
    by_cases he : k0 = k
    · rw [if_pos he] at hkv
      rcases List.mem_cons.mp hkv with rfl | h2
      · exact Or.inr rfl
      · exact Or.inl (List.mem_cons_of_mem _ h2)
    · rw [if_neg he] at hkv
      rcases List.mem_cons.mp hkv with rfl | h2
      · exact Or.inl (List.mem_cons_self _ _)
      · rcases ih k v kv h2 with h3 | h3
        · exact Or.inl (List.mem_cons_of_mem _ h3)
        · exact Or.inr h3

theorem extract_neighbors_ne_qmark (parts : List (List Char))
    (hp : ∀ t ∈ parts, ∀ c ∈ t, pyIsWs c = false) :
    ∀ nb ∈ extract_neighbors parts, nb ≠ "?" := by
  unfold extract_neighbors
  refine foldlInv (fun s : List String => ∀ nb ∈ s, nb ≠ "?") _ parts [] ?_ ?_
  · intro nb h; cases h
  · intro s part _ hs
    by_cases hcond : (part.take 1 = ['C'] ∧ parts.length > parts.indexOf part + 1)
    · rw [if_pos hcond]
      intro nb hnb
      rcases List.mem_append.mp hnb with h | h
      · exact hs nb h
      · rcases List.mem_map.mp h with ⟨c, hcf, rfl⟩
        have hcmem := List.mem_filter.mp hcf
        have htok : parts.getD (parts.indexOf part + 1) [] ∈ parts := by
          have hlt : parts.indexOf part + 1 < parts.length := hcond.2
          rw [List.getD_eq_getElem?_getD, List.getElem?_eq_getElem hlt]
          exact List.getElem_mem hlt
        have hnoWs : ∀ ch ∈ c, pyIsWs ch = false := by
          intro ch hch
          exact hp _ htok ch (pySplitChar_mem c hcmem.1 ch hch)
        rw [pyStrip_noWs hnoWs]
        intro heq
        have hcq : c = ['?'] := mk_eq_qmark heq
        have hflt := hcmem.2
        rw [hcq] at hflt
        simp at hflt
    · rw [if_neg hcond]
      exact hs

/-- Preservation of the no-question-mark neighbor property by one parser
step. -/
theorem mdfStep_no_qmark (l : String) (inMol : Bool) (atoms : List (String × AtomRec))
    (hat : ∀ kv ∈ atoms, ∀ nb ∈ kv.2.neighbors, nb ≠ "?") :
    ∀ m a, mdfStep l inMol atoms = .ok (m, a) →
      ∀ kv ∈ a, ∀ nb ∈ kv.2.neighbors, nb ≠ "?" := by
  intro m a hstep
  unfold mdfStep at hstep
  by_cases h1 : (pyStrip l.toList).isEmpty
  · rw [if_pos h1] at hstep
    injection hstep with h2
    injection h2 with _ h3
    rw [← h3]; exact hat
  · rw [if_neg h1] at hstep
    by_cases h2 : List.isPrefixOf ("@column".toList) (pyStrip l.toList)
    · rw [if_pos h2] at hstep
      by_cases h3 : (pySplitWs (pyStrip l.toList)).length ≥ 3
      · rw [if_pos h3] at hstep
        cases hint : pyInt ((pySplitWs (pyStrip l.toList)).getD 1 []) with
        | some v =>
          rw [hint] at hstep
          injection hstep with h4
          injection h4 with _ h5
          rw [← h5]; exact hat
        | none => rw [hint] at hstep; cases hstep
      · rw [if_neg h3] at hstep
        injection hstep with h4
        injection h4 with _ h5
        rw [← h5]; exact hat
    · rw [if_neg h2] at hstep
      by_cases h3 : List.isPrefixOf ("@molecule".toList) (pyStrip l.toList)
      · rw [if_pos h3] at hstep
        injection hstep with h4
        injection h4 with _ h5
        rw [← h5]; exact hat
      · rw [if_neg h3] at hstep
        by_cases h4 : ((pyStrip l.toList).take 1 = ['!'] ∨ (pyStrip l.toList).take 1 = ['#'] ∨ ¬inMol)
        · rw [if_pos h4] at hstep
          injection hstep with h5
          injection h5 with _ h6
          rw [← h6]; exact hat
        · rw [if_neg h4] at hstep
          by_cases h5 : (pySplitWs (pyStrip l.toList)).isEmpty
          · rw [if_pos h5] at hstep
            injection hstep with h6
            injection h6 with _ h7
            rw [← h7]; exact hat
          · rw [if_neg h5] at hstep
            injection hstep with h6
            injection h6 with _ h7
            rw [← h7]
            intro kv hkv
            rcases dictInsert_cases atoms _ _ kv hkv with h8 | h8
            · exact hat kv h8
            · rw [h8]
              intro nb hnb
              exact extract_neighbors_ne_qmark _ (fun t ht => pySplitWs_noWs t ht) nb hnb

theorem mdfGo_no_qmark : ∀ (lines : List String) (inMol : Bool)
    (atoms : List (String × AtomRec)),
    (∀ kv ∈ atoms, ∀ nb ∈ kv.2.neighbors, nb ≠ "?") →
    ∀ res, mdfGo lines inMol atoms = .ok res →
    ∀ kv ∈ res, ∀ nb ∈ kv.2.neighbors, nb ≠ "?" := by
  intro lines
  induction lines with
  | nil =>
    intro inMol atoms hat res hres
    unfold mdfGo at hres
    by_cases h1 : atoms.isEmpty
    · rw [if_pos h1] at hres; cases hres
    · rw [if_neg h1] at hres
      injection hres with h2
      rw [← h2]; exact hat
  | cons l ls ih =>
    intro inMol atoms hat res hres
    unfold mdfGo at hres
    cases hstep : mdfStep l inMol atoms with
    | error e => rw [hstep] at hres; cases hres
    | ok st =>
      rw [hstep] at hres
      obtain ⟨m, a⟩ := st
      exact ih m a (mdfStep_no_qmark l inMol atoms hat m a hstep) res hres

/-- C10: a neighbor token equal to the question mark is discarded during
parsing, so no atom entry of the Connectivity Model ever lists it as a
neighbor identifier. -/
theorem claim_C10 (lines : List String) (res : List (String × AtomRec))
    (hok : parse_mdf_file lines = .ok res) :
    ∀ kv ∈ res, ("?" : String) ∉ kv.2.neighbors := by
  intro kv hkv hmem
  exact mdfGo_no_qmark lines false [] (by intro kv2 h; cases h) res hok kv hkv ("?") hmem rfl

/-- Witness for C10: a line whose connections token carries a question-mark
piece yields an entry without it. -/
theorem claim_C10_witness :
    ("?" : String) ∉ (AtomRec.mk ("y") ["B1"]).neighbors :=
  claim_C10 ["@molecule m", "A1 x y C2 B1/?"] [("A1", ⟨"y", ["B1"]⟩)] (by rfl)
    ("A1", ⟨"y", ["B1"]⟩) (by decide)

/-- C8: evaluation at the failing input.  The claim says neighbor tokens
have the bond-order suffix and the periodic-image prefix stripped; the code
instead splits the token after a C-field on the slash and stores every
piece, so the plus prefix survives in +B1 and the bond order 2.0 is stored
as a neighbor identifier. -/
theorem claim_C8_eval :
    parse_mdf_file ["@molecule m", "A1 x y C2 +B1/2.0"]
      = .ok [("A1", ⟨"y", ["+B1", "2.0"]⟩)] := by rfl

/-- C9 counterexample: a molecule-section data line with a single field is
not skipped; the parser records an atom entry with empty charge group and
no neighbors, contrary to the claim that short lines produce no entry. -/
theorem claim_C9_cex :
    parse_mdf_file ["@molecule m", "A1"] = .ok [("A1", ⟨"", []⟩)] := by rfl

theorem isPrefixOf_cons_ne {a b : Char} (t l : List Char) (h : ¬ a = b) :
    List.isPrefixOf (a :: t) (b :: l) = false := by
  rw [show List.isPrefixOf (a :: t) (b :: l) = (a == b && List.isPrefixOf t l) from rfl]
  rw [beq_eq_false_iff_ne.mpr h, Bool.false_and]

theorem extract_neighbors_single (t : List Char) : extract_neighbors [t] = [] := by
  unfold extract_neighbors
  rw [List.foldl_cons, List.foldl_nil]
  rw [if_neg ?hcond]
  case hcond =>
    rintro ⟨_, hgt⟩
    have hlen : ([t] : List (List Char)).length = 1 := rfl
    rw [hlen] at hgt
    omega

theorem rstripWs_cons_keep {x : Char} {l : List Char} (h : rstripWs l ≠ []) :
    rstripWs (x :: l) = x :: rstripWs l := by
  unfold rstripWs at *
  rw [show (x :: l).reverse = l.reverse ++ [x] from by simp]
  rw [List.dropWhile_append]
  by_cases he : (l.reverse.dropWhile pyIsWs).isEmpty
  · rw [List.isEmpty_iff] at he
    rw [he] at h
    simp at h
  · rw [if_neg he]
    simp

theorem rstripWs_tok_sep {t2 : List Char} (h2 : ∀ ch ∈ t2, pyIsWs ch = false)
    (hn2 : t2 ≠ []) : ∀ t1 : List Char, rstripWs (t1 ++ ' ' :: t2) = t1 ++ ' ' :: t2 := by
  intro t1
  induction t1 with
  | nil =>
    rw [List.nil_append]
    rw [rstripWs_cons_keep (by rw [rstripWs_noWs h2]; exact hn2)]
    rw [rstripWs_noWs h2]
  | cons x t1 ih =>
    rw [List.cons_append]
    rw [rstripWs_cons_keep (by rw [ih]; simp)]
    rw [ih]

theorem wsSplitGo_pair {t2 : List Char} (h2 : ∀ ch ∈ t2, pyIsWs ch = false)
    (hn2 : t2 ≠ []) : ∀ (t1 acc : List Char), (∀ ch ∈ t1, pyIsWs ch = false) →
    acc.reverse ++ t1 ≠ [] →
    wsSplitGo (t1 ++ ' ' :: t2) acc = [acc.reverse ++ t1, t2] := by
  intro t1
  induction t1 with
  | nil =>
    intro acc _ hne
    rw [List.nil_append]
    unfold wsSplitGo
    rw [if_pos (show pyIsWs ' ' = true from rfl)]
    have hae : acc.isEmpty = false := by
      cases acc with
      | nil => simp at hne
      | cons x xs => rfl
    rw [hae]
    show acc.reverse :: wsSplitGo t2 [] = _
    rw [wsSplitGo_single t2 [] h2 (fun _ => hn2)]
    simp
  | cons x t1 ih =>
    intro acc h1 _
    rw [List.cons_append]
    unfold wsSplitGo
    rw [h1 x (List.mem_cons_self x t1)]
    show wsSplitGo (t1 ++ ' ' :: t2) (x :: acc) = _
    rw [ih (x :: acc) (fun ch hch => h1 ch (List.mem_cons_of_mem x hch)) (by simp)]
    simp

theorem pySplitWs_pair {t1 t2 : List Char} (h1 : ∀ ch ∈ t1, pyIsWs ch = false)
    (h2 : ∀ ch ∈ t2, pyIsWs ch = false) (hn1 : t1 ≠ []) (hn2 : t2 ≠ []) :
    pySplitWs (t1 ++ ' ' :: t2) = [t1, t2] := by
  unfold pySplitWs
  rw [wsSplitGo_pair h2 hn2 t1 [] h1 (by simpa using hn1)]
  simp

/-- C9 amended: a molecule-section data line with fewer than the three
documented fields is not skipped: the parser records an atom entry keyed by
the first field, with the missing type and charge group defaulting to the
empty string, and with the neighbor list produced by the unchanged
connections scan over the fields of the line.  For a single-field line that
scan yields no neighbors; for a two-field line it stores the slash-pieces
of the second field whenever the first field starts with the letter C, as
the concrete line C1 x shows. -/
theorem claim_C9_amended :
    (∀ (c : Char) (cs : List Char), pyIsWs c = false → (∀ ch ∈ cs, pyIsWs ch = false) →
      c ≠ '@' → c ≠ '!' → c ≠ '#' →
      parse_mdf_file ["@molecule m", String.mk (c :: cs)]
        = .ok [(String.mk (c :: cs), ⟨"", []⟩)])
    ∧ (∀ (c : Char) (cs t2 : List Char), pyIsWs c = false →
      (∀ ch ∈ cs, pyIsWs ch = false) → (∀ ch ∈ t2, pyIsWs ch = false) → t2 ≠ [] →
      c ≠ '@' → c ≠ '!' → c ≠ '#' →
      parse_mdf_file ["@molecule m", String.mk ((c :: cs) ++ ' ' :: t2)]
        = .ok [(String.mk (c :: cs), ⟨"", extract_neighbors [c :: cs, t2]⟩)])
    ∧ parse_mdf_file ["@molecule m", "C1 x"] = .ok [("C1", ⟨"", ["x"]⟩)] := by
  refine ⟨?one, ?two, by rfl⟩
  case one =>
    intro c cs hc hcs h1 h2 h3
    have hnoWs : ∀ ch ∈ c :: cs, pyIsWs ch = false := by
      intro ch hch
      rcases List.mem_cons.mp hch with rfl | hh
      · exact hc
      · exact hcs ch hh
    have hline : pyStrip (String.mk (c :: cs)).toList = c :: cs := pyStrip_noWs hnoWs
    have hstep2 : mdfStep (String.mk (c :: cs)) true []
        = .ok (true, [(String.mk (c :: cs), ⟨"", []⟩)]) := by
      unfold mdfStep
      rw [hline]
      rw [if_neg (show ¬((c :: cs).isEmpty = true) from by simp)]
      rw [show ("@column".toList) = '@' :: ("column".toList) from rfl]
      rw [isPrefixOf_cons_ne _ _ (fun h => h1 h.symm), if_neg (by simp)]
      rw [show ("@molecule".toList) = '@' :: ("molecule".toList) from rfl]
      rw [isPrefixOf_cons_ne _ _ (fun h => h1 h.symm), if_neg (by simp)]
      rw [if_neg ?hskip]
      case hskip =>
        rintro (h | h | h)
        · exact h2 (by injection h)
        · exact h3 (by injection h)
        · exact h rfl
      rw [pySplitWs_single hnoWs (by simp)]
      rw [if_neg (show ¬(([c :: cs] : List (List Char)).isEmpty = true) from by simp)]
      rw [extract_neighbors_single]
      rfl
    have e1 : parse_mdf_file ["@molecule m", String.mk (c :: cs)]
        = mdfGo [String.mk (c :: cs)] true [] := by rfl
    rw [e1]
    unfold mdfGo
    rw [hstep2]
    rfl
  case two =>
    intro c cs t2 hc hcs ht2 hn2 h1 h2 h3
    have hnoWs1 : ∀ ch ∈ c :: cs, pyIsWs ch = false := by
      intro ch hch
      rcases List.mem_cons.mp hch with rfl | hh
      · exact hc
      · exact hcs ch hh
    have hline : pyStrip (String.mk ((c :: cs) ++ ' ' :: t2)).toList
        = (c :: cs) ++ ' ' :: t2 := by
      show pyStrip ((c :: cs) ++ ' ' :: t2) = _
      unfold pyStrip
      rw [List.cons_append, lstripWs_cons_nonWs _ hc, ← List.cons_append]
      exact rstripWs_tok_sep ht2 hn2 (c :: cs)
    have hsplit : pySplitWs ((c :: cs) ++ ' ' :: t2) = [c :: cs, t2] :=
      pySplitWs_pair hnoWs1 ht2 (by simp) hn2
    have hstep2 : mdfStep (String.mk ((c :: cs) ++ ' ' :: t2)) true []
        = .ok (true, [(String.mk (c :: cs), ⟨"", extract_neighbors [c :: cs, t2]⟩)]) := by
      unfold mdfStep
      rw [hline]
      rw [List.cons_append]
      rw [if_neg (show ¬((c :: (cs ++ ' ' :: t2)).isEmpty = true) from by simp)]
      rw [show ("@column".toList) = '@' :: ("column".toList) from rfl]
      rw [isPrefixOf_cons_ne _ _ (fun h => h1 h.symm), if_neg (by simp)]
      rw [show ("@molecule".toList) = '@' :: ("molecule".toList) from rfl]
      rw [isPrefixOf_cons_ne _ _ (fun h => h1 h.symm), if_neg (by simp)]
      rw [if_neg ?hskip2]
      case hskip2 =>
        rintro (h | h | h)
        · exact h2 (by injection h)
        · exact h3 (by injection h)
        · exact h rfl
      rw [← List.cons_append, hsplit]
      rw [if_neg (show ¬(([c :: cs, t2] : List (List Char)).isEmpty = true) from by simp)]
      rfl
    have e1 : parse_mdf_file ["@molecule m", String.mk ((c :: cs) ++ ' ' :: t2)]
        = mdfGo [String.mk ((c :: cs) ++ ' ' :: t2)] true [] := by rfl
    rw [e1]
    unfold mdfGo
    rw [hstep2]
    rfl

/-- Witness for the amended C9 at the two-field line C1 x, which records an
entry with empty charge group and the second field as a neighbor. -/
theorem claim_C9_amended_witness :
    parse_mdf_file ["@molecule m", String.mk (('C' :: ['1']) ++ ' ' :: ['x'])]
      = .ok [(String.mk ('C' :: ['1']), ⟨"", extract_neighbors ['C' :: ['1'], ['x']]⟩)] :=
  claim_C9_amended.2.1 'C' ['1'] ['x'] (by decide) (by decide) (by decide)
    (by decide) (by decide) (by decide) (by decide)

/-! ## Claims about the CHARMM section parser -/

/-- C5 counterexample: in the BONDS section, after a record, a blank line
and two comment lines, the second comment line (which follows the blank
line and precedes the next data line) is appended to the record, so comment
lines after a blank are not all dropped as the claim states. -/
theorem claim_C5_cex :
    parse_bonds_section ["H C 340.0 1.09", "", "! a", "! b", "N O 2.0 3.0"] 1
      = .ok [⟨"H", "C", mkRat 340 1, mkRat 109 100, ["b"], 1⟩,
        ⟨"N", "O", mkRat 2 1, mkRat 3 1, [], 5⟩] := by rfl

theorem bondsGo_cons_ok {l : String} {ls : List String} {n : Nat} {lwc : Bool}
    {acc : List BondEntry} {lwc2 : Bool} {acc2 : List BondEntry}
    (h : bondsStep l n lwc acc = .ok (lwc2, acc2)) :
    bondsGo (l :: ls) n lwc acc = bondsGo ls (n + 1) lwc2 acc2 := by
  conv_lhs => rw [bondsGo]
  rw [h]

/-- C5 amended: a blank line clears only the comment-run flag and leaves the
current record in place; the first comment line after the blank is dropped
but restores the flag, and the next comment line is appended to the record
parsed before the blank.  Stated for every pair of comment texts (the second
one stripped of surrounding whitespace). -/
theorem claim_C5_amended (c1 c2 : List Char)
    (h2 : lstripWs c2 = c2) (h3 : rstripWs c2 = c2) :
    parse_bonds_section
      ["H C 340.0 1.09", "", String.mk ('!' :: c1), String.mk ('!' :: c2)] 1
      = .ok [⟨"H", "C", mkRat 340 1, mkRat 109 100, [String.mk c2], 1⟩] := by
  have hs1 : bondsStep ("H C 340.0 1.09") 1 false []
      = .ok (true, [⟨"H", "C", mkRat 340 1, mkRat 109 100, [], 1⟩]) := by rfl
  have hs2 : bondsStep ("") 2 true [⟨"H", "C", mkRat 340 1, mkRat 109 100, [], 1⟩]
      = .ok (false, [⟨"H", "C", mkRat 340 1, mkRat 109 100, [], 1⟩]) := by rfl
  have hline1 : pyStrip (String.mk ('!' :: c1)).toList = '!' :: rstripWs c1 := by
    show pyStrip ('!' :: c1) = _
    unfold pyStrip
    rw [lstripWs_cons_nonWs c1 (by decide), rstripWs_cons_nonWs c1 (by decide)]
  have hs3 : bondsStep (String.mk ('!' :: c1)) 3 false
      [⟨"H", "C", mkRat 340 1, mkRat 109 100, [], 1⟩]
      = .ok (true, [⟨"H", "C", mkRat 340 1, mkRat 109 100, [], 1⟩]) := by
    unfold bondsStep
    rw [hline1]
    rw [if_neg (show ¬(('!' :: rstripWs c1).isEmpty = true) from by simp)]
    rw [if_pos (show ('!' :: rstripWs c1).take 1 = ['!'] from rfl)]
    rw [if_neg (by simp)]
  have hline2 : pyStrip (String.mk ('!' :: c2)).toList = '!' :: c2 := by
    show pyStrip ('!' :: c2) = _
    unfold pyStrip
    rw [lstripWs_cons_nonWs c2 (by decide), rstripWs_cons_nonWs c2 (by decide), h3]
  have hs4 : bondsStep (String.mk ('!' :: c2)) 4 true
      [⟨"H", "C", mkRat 340 1, mkRat 109 100, [], 1⟩]
      = .ok (true, [⟨"H", "C", mkRat 340 1, mkRat 109 100, [String.mk c2], 1⟩]) := by
    unfold bondsStep
    rw [hline2]
    rw [if_neg (show ¬(('!' :: c2).isEmpty = true) from by simp)]
    rw [if_pos (show ('!' :: c2).take 1 = ['!'] from rfl)]
    rw [if_pos (show ([⟨"H", "C", mkRat 340 1, mkRat 109 100, [], 1⟩] : List BondEntry) ≠ []
        ∧ true = true from ⟨by simp, rfl⟩)]
    rw [show ('!' :: c2).drop 1 = c2 from rfl]
    rw [show pyStrip c2 = c2 from by unfold pyStrip; rw [h2, h3]]
    rfl
  show bondsGo _ 1 false [] = _
  rw [bondsGo_cons_ok hs1, bondsGo_cons_ok hs2, bondsGo_cons_ok hs3, bondsGo_cons_ok hs4]
  rfl

/-- Witness for the amended C5 at concrete comment texts. -/
theorem claim_C5_amended_witness :
    parse_bonds_section
      ["H C 340.0 1.09", "", String.mk ('!' :: ("a".toList)), String.mk ('!' :: ("b".toList))] 1
      = .ok [⟨"H", "C", mkRat 340 1, mkRat 109 100, [String.mk ("b".toList)], 1⟩] :=
  claim_C5_amended ("a".toList) ("b".toList) (by decide) (by decide)

theorem splitGo_cons_noheader {l : String} (h : headerOf l = none) (ls : List String) (i : Nat) :
    splitGo (l :: ls) i none [] 0 [] = splitGo ls (i + 1) none [] 0 [] := by
  conv_lhs => rw [splitGo]
  rw [h]

theorem splitGo_skip : ∀ (junk rest : List String) (i : Nat),
    (∀ l ∈ junk, headerOf l = none) →
    splitGo (junk ++ rest) i none [] 0 [] = splitGo rest (i + junk.length) none [] 0 [] := by
  intro junk
  induction junk with
  | nil => intro rest i _; simp
  | cons j js ih =>
    intro rest i h
    rw [List.cons_append]
    rw [splitGo_cons_noheader (h j (List.mem_cons_self j js)) (js ++ rest) i]
    rw [ih rest (i + 1) (fun l hl => h l (List.mem_cons_of_mem j hl))]
    rw [List.length_cons]
    congr 1
    omega

/-- C6: for every file made of non-header junk lines followed by a BONDS
header and the data line of the scenario, parsing yields exactly one Bond
record with atoms H and C, coefficients 340.0 and 1.09, comment list with
the single entry note, and the 1-based absolute position of the data line
in the file as its line number. -/
theorem claim_C6 (junk : List String) (hjunk : ∀ l ∈ junk, headerOf l = none) :
    parse_charmm_parameter_file (junk ++ ["BONDS", "H C 340.0 1.09 ! note"])
      = .ok [(("BONDS"), SecTable.bondsT
        [⟨"H", "C", mkRat 340 1, mkRat 109 100, ["note"], junk.length + 2⟩])] := by
  unfold parse_charmm_parameter_file
  rw [splitGo_skip junk ["BONDS", "H C 340.0 1.09 ! note"] 0 hjunk]
  rw [Nat.zero_add]
  rw [show splitGo ["BONDS", "H C 340.0 1.09 ! note"] junk.length none [] 0 []
    = [(("BONDS"), ⟨["H C 340.0 1.09 ! note"], junk.length + 1⟩)] from rfl]
  rw [show ∀ m : Nat, chDispatch [(("BONDS"), ⟨["H C 340.0 1.09 ! note"], m⟩)] []
    = .ok [(("BONDS"), SecTable.bondsT
      [⟨"H", "C", mkRat 340 1, mkRat 109 100, ["note"], m + 1⟩])] from fun m => rfl]

/-- Witness for C6 with two junk lines before the section. -/
theorem claim_C6_witness :
    parse_charmm_parameter_file
      (["* title", "remark"] ++ ["BONDS", "H C 340.0 1.09 ! note"])
      = .ok [(("BONDS"), SecTable.bondsT
        [⟨"H", "C", mkRat 340 1, mkRat 109 100, ["note"],
          (["* title", "remark"] : List String).length + 2⟩])] :=
  claim_C6 ["* title", "remark"] (by decide)

end MolTopo
